import Mathlib

/-!
Shallow embedding of the Gallerust image-viewer core (src/main.rs) and
proofs about its navigation state machine and viewport compositor.

Modelling conventions:
* Rust `f32` arithmetic is modelled over the rationals; the literals of
  the source (0.1, 5.0, 1.0) become exact rationals.  Division by zero
  yields 0 over the rationals where f32 would yield an infinity; for the
  degenerate inputs on which this occurs (a zero image or frame
  dimension) both conventions make the drawing loops run zero
  iterations, so every observable statement proved here matches the
  source behaviour.
* Rust `usize` / `u32` values are modelled as `Nat`.  Operations that
  panic in the source (remainder by zero, checked subtraction overflow,
  slice indexing out of bounds, a failed `expect`) are modelled in the
  `Except String` monad, with the panic message of the source as the
  error value.
* The `as u32` cast of an `f32` saturates at 0 and `u32::MAX` and
  truncates toward zero; `ratAsU32` reproduces this on rationals.
* The `as i32` reinterpretation of a `u32` and wrapping `i32`
  subtraction used by the centering offsets are reproduced exactly by
  `u32AsI32` and `i32Wrap`.
-/

set_option autoImplicit false

namespace Gallerust

/-- A decode result: raw RGBA byte data plus width and height,
modelling the return type of `load_image` in the source. -/
abbrev DecodeResult := List Nat × Nat × Nat

/-- The mutable application state of the source (`struct AppState`). -/
structure AppState where
  images : List String
  current_index : Nat
  zoom : ℚ
  img_data : List Nat
  img_width : Nat
  img_height : Nat
deriving DecidableEq, Repr

/-- Rust `a % b` on `usize`: panics when `b = 0`. -/
def usizeRem (a b : Nat) : Except String Nat :=
  if b = 0 then .error "attempt to calculate the remainder with a divisor of zero"
  else .ok (a % b)

/-- Rust `a - b` on `usize` with overflow checking (debug semantics):
panics when `b > a`. -/
def usizeSub (a b : Nat) : Except String Nat :=
  if b ≤ a then .ok (a - b) else .error "attempt to subtract with overflow"

/-- Rust `a.checked_sub(b)` on `usize`. -/
def checkedSub (a b : Nat) : Option Nat :=
  if b ≤ a then some (a - b) else none

/-- `fn load_image`: calls the external decoder and unwraps the result
with `expect("Failed to open image")`, i.e. panics on a decode failure.
The external decoder is passed in as an oracle from paths to optional
decode results. -/
def load_image (decode : String → Option DecodeResult) (path : String) :
    Except String DecodeResult :=
  match decode path with
  | some r => .ok r
  | none => .error "Failed to open image"

/-- `fn load_current`: indexes `self.images[self.current_index]`
(a panic when out of bounds) and stores the decoded data. -/
def load_current (decode : String → Option DecodeResult) (s : AppState) :
    Except String AppState :=
  match s.images.get? s.current_index with
  | none => .error "index out of bounds"
  | some path =>
    match load_image decode path with
    | .error e => .error e
    | .ok (data, w, h) =>
      .ok { s with img_data := data, img_width := w, img_height := h }

/-- `fn go_next`: `current_index = (current_index + 1) % images.len()`,
then reload, then reset the zoom to 1.0. -/
def go_next (decode : String → Option DecodeResult) (s : AppState) :
    Except String AppState :=
  match usizeRem (s.current_index + 1) s.images.length with
  | .error e => .error e
  | .ok idx =>
    match load_current decode { s with current_index := idx } with
    | .error e => .error e
    | .ok s' => .ok { s' with zoom := 1 }

/-- `fn go_prev`: `current_index.checked_sub(1).unwrap_or(images.len() - 1)`.
The argument `images.len() - 1` is evaluated before `unwrap_or` is
applied, so on an empty list the subtraction itself panics. -/
def go_prev (decode : String → Option DecodeResult) (s : AppState) :
    Except String AppState :=
  match usizeSub s.images.length 1 with
  | .error e => .error e
  | .ok fallback =>
    match load_current decode
        { s with current_index := (checkedSub s.current_index 1).getD fallback } with
    | .error e => .error e
    | .ok s' => .ok { s' with zoom := 1 }

/-- `fn zoom_in`: `zoom = (zoom + 0.1).min(5.0)`. -/
def zoom_in (s : AppState) : AppState :=
  { s with zoom := min (s.zoom + 1/10) 5 }

/-- `fn zoom_out`: `zoom = (zoom - 0.1).max(0.1)`. -/
def zoom_out (s : AppState) : AppState :=
  { s with zoom := max (s.zoom - 1/10) (1/10) }

/-- A concrete state with zoom factor 2, used as a test input. -/
def stZ2 : AppState := ⟨["a"], 0, 2, [], 0, 0⟩

/-- A concrete state with an empty image collection. -/
def emptyState : AppState := ⟨[], 0, 1, [], 0, 0⟩

/-- A concrete two-image state. -/
def twoState : AppState := ⟨["a", "b"], 0, 1, [], 0, 0⟩

/-- A concrete five-image state positioned on the last image. -/
def fiveStateLast : AppState := ⟨["a", "b", "c", "d", "e"], 4, 1, [], 0, 0⟩

/-- A decode oracle that always succeeds. -/
def decodeOk : String → Option DecodeResult := fun _ => some ([], 1, 1)

/-- A decode oracle that always fails. -/
def decodeFail : String → Option DecodeResult := fun _ => none

/-! ## Viewport compositor (fn draw_image)

The source operates on flat RGBA byte buffers and always copies aligned
4-byte groups (one pixel) at a time; the model represents each such
group as one element, so the factor 4 of the byte indices is dropped and
an index here is a pixel index.  Slice accesses that would panic in Rust
are modelled in the Except monad. -/

/-- One RGBA sample group (r, g, b, a). -/
abbrev Pixel := Nat × Nat × Nat × Nat

/-- The opaque black background sample written by the clear loop. -/
def BLACK : Pixel := (0, 0, 0, 255)

/-- Largest u32 value. -/
def U32_MAX : Nat := 4294967295

/-- Rust cast of an f32 to u32, modelled on the rationals: truncation
toward zero, saturating at 0 below and at u32 MAX above. -/
def ratAsU32 (q : ℚ) : Nat :=
  if q ≤ 0 then 0 else min q.floor.toNat U32_MAX

/-- Rust reinterpretation of a u32 value as i32 (wrap at 2 ^ 31). -/
def u32AsI32 (v : Nat) : Int :=
  if v < 2147483648 then (v : Int) else (v : Int) - 4294967296

/-- Wrap of an integer into the i32 range, the release-mode result of an
overflowing i32 subtraction. -/
def i32Wrap (v : Int) : Int :=
  (v + 2147483648) % 4294967296 - 2147483648

/-- let base_scale = scale_x.min(scale_y) where scale_x = fw / iw and
scale_y = fh / ih in f32 division.  Over the rationals a division by
zero yields 0 where f32 yields an infinity; for the degenerate inputs
on which this occurs both conventions make the scaled extents used by
the drawing loops equal to zero, so the loops run zero iterations either
way. -/
def base_scale (iw ih fw fh : Nat) : ℚ :=
  min ((fw : ℚ) / (iw : ℚ)) ((fh : ℚ) / (ih : ℚ))

/-- let scale = base_scale * zoom -/
def final_scale (iw ih fw fh : Nat) (zoom : ℚ) : ℚ :=
  base_scale iw ih fw fh * zoom

/-- let scaled_width = (img_width as f32 * scale) as u32 -/
def scaled_width (iw ih fw fh : Nat) (zoom : ℚ) : Nat :=
  ratAsU32 ((iw : ℚ) * final_scale iw ih fw fh zoom)

/-- let scaled_height = (img_height as f32 * scale) as u32 -/
def scaled_height (iw ih fw fh : Nat) (zoom : ℚ) : Nat :=
  ratAsU32 ((ih : ℚ) * final_scale iw ih fw fh zoom)

/-- let offset_x = ((frame_width as i32 - scaled_width as i32) / 2).max(0) as u32 -/
def offset_x (iw ih fw fh : Nat) (zoom : ℚ) : Nat :=
  (max ((i32Wrap (u32AsI32 fw - u32AsI32 (scaled_width iw ih fw fh zoom))).tdiv 2) 0).toNat

/-- let offset_y = ((frame_height as i32 - scaled_height as i32) / 2).max(0) as u32 -/
def offset_y (iw ih fw fh : Nat) (zoom : ℚ) : Nat :=
  (max ((i32Wrap (u32AsI32 fh - u32AsI32 (scaled_height iw ih fw fh zoom))).tdiv 2) 0).toNat

/-- The loop constants of one draw_image call. -/
structure DrawCtx where
  img : List Pixel
  iw : Nat
  ih : Nat
  fw : Nat
  fh : Nat
  scale : ℚ
  offset_x : Nat
  offset_y : Nat
  scaled_width : Nat
  scaled_height : Nat

/-- The evolving state of one draw_image call: the destination buffer
plus a ghost trace recording, for every performed copy, the destination
coordinates and the sampled source coordinates ((dest_x, dest_y),
(src_x, src_y)). -/
structure CompositeState where
  frame : List Pixel
  writes : List ((Nat × Nat) × (Nat × Nat))
deriving DecidableEq, Repr

/-- The body of the inner loop of draw_image for one destination column
x of row y: skip the pixel when it falls right of the frame, otherwise
copy the clamped nearest-neighbor source sample to the destination.
The sampling chain `(x as f32 / scale) as u32` is modelled as exact
rational division followed by the saturating cast; the cast `x as f32`
itself is exact only for x up to 2 ^ 24 (see natAsF32 for the genuine
f32 rounding above that), so statements about the exact sampled column
are restricted to that range. -/
def drawPixel (c : DrawCtx) (x y : Nat) (st : CompositeState) :
    Except String CompositeState :=
  let frame_x := x + c.offset_x
  if c.fw ≤ frame_x then .ok st
  else
    let frame_y := y + c.offset_y
    let src_x := min (ratAsU32 ((x : ℚ) / c.scale)) (c.iw - 1)
    let src_y := min (ratAsU32 ((y : ℚ) / c.scale)) (c.ih - 1)
    let src_index := src_y * c.iw + src_x
    let dst_index := frame_y * c.fw + frame_x
    match c.img.get? src_index with
    | none => .error "source index out of bounds"
    | some px =>
      if dst_index < st.frame.length then
        .ok ⟨st.frame.set dst_index px,
          st.writes ++ [((frame_x, frame_y), (src_x, src_y))]⟩
      else .error "destination index out of bounds"

/-- for x in x0..(x0 + n): the inner loop of draw_image over the
destination columns of row y. -/
def drawRowFrom (c : DrawCtx) (y : Nat) :
    Nat → Nat → CompositeState → Except String CompositeState
  | _, 0, st => .ok st
  | x, Nat.succ n, st =>
    match drawPixel c x y st with
    | .error e => .error e
    | .ok st' => drawRowFrom c y (x + 1) n st'

/-- for y in y0..(y0 + n): the outer loop of draw_image over the
destination rows, stopping at the first row that falls below the frame
(the break of the source). -/
def drawRowsFrom (c : DrawCtx) :
    Nat → Nat → CompositeState → Except String CompositeState
  | _, 0, st => .ok st
  | y, Nat.succ n, st =>
    if c.fh ≤ y + c.offset_y then .ok st
    else
      match drawRowFrom c y 0 c.scaled_width st with
      | .error e => .error e
      | .ok st' => drawRowsFrom c (y + 1) n st'

/-- The loop constants of draw_image for the given arguments. -/
def mkCtx (img : List Pixel) (iw ih fw fh : Nat) (zoom : ℚ) : DrawCtx :=
  { img := img, iw := iw, ih := ih, fw := fw, fh := fh,
    scale := final_scale iw ih fw fh zoom,
    offset_x := offset_x iw ih fw fh zoom,
    offset_y := offset_y iw ih fw fh zoom,
    scaled_width := scaled_width iw ih fw fh zoom,
    scaled_height := scaled_height iw ih fw fh zoom }

/-- fn draw_image: clear the whole destination to opaque black, then
blit the scaled, centered, clipped image over it. -/
def draw_image (frame img : List Pixel) (img_width img_height frame_width frame_height : Nat)
    (zoom : ℚ) : Except String CompositeState :=
  drawRowsFrom (mkCtx img img_width img_height frame_width frame_height zoom) 0
    (scaled_height img_width img_height frame_width frame_height zoom)
    ⟨frame.map (fun _ => BLACK), []⟩

/-- A write entry stays within the destination and source coordinate
bounds of the context. -/
def WriteOk (c : DrawCtx) (e : (Nat × Nat) × (Nat × Nat)) : Prop :=
  e.1.1 < c.fw ∧ e.1.2 < c.fh ∧ e.2.1 < c.iw ∧ e.2.2 < c.ih

/-- Spacing of the f32 grid at a value n of u32 magnitude with
2 ^ 24 < n < 2 ^ 32: an f32 has a 24-bit significand, so values in
[2 ^ (23 + k), 2 ^ (24 + k)) are representable only at multiples of
2 ^ k. -/
def f32Ulp (n : Nat) : Nat :=
  if n < 33554432 then 2
  else if n < 67108864 then 4
  else if n < 134217728 then 8
  else if n < 268435456 then 16
  else if n < 536870912 then 32
  else if n < 1073741824 then 64
  else if n < 2147483648 then 128
  else 256

/-- The exact value of the Rust cast `x as f32` for x in u32 range:
round to the nearest f32-representable value, ties to even significand.
Naturals up to 2 ^ 24 are exactly representable; above that the cast
rounds to a multiple of the grid spacing. -/
def natAsF32 (n : Nat) : Nat :=
  if n ≤ 16777216 then n
  else
    let u := f32Ulp n
    let q := n / u
    let r := n % u
    let h := u / 2
    if r < h then q * u
    else if h < r then (q + 1) * u
    else if q % 2 = 0 then q * u else (q + 1) * u

/-- The source column sampled by draw_image at a final scale of exactly
1.0: the source computes `(x as f32 / scale) as u32` and then clamps
with `.min(img_width - 1)`; since division of any f32 value by 1.0 is
exact, the only rounding in the chain is `x as f32`, which natAsF32
models exactly. -/
def srcColAtScaleOne (x iw : Nat) : Nat :=
  min (natAsF32 x) (iw - 1)

end Gallerust

namespace Gallerust

/-! ## Helper lemmas about the navigation operations -/

theorem load_current_spec (decode : String → Option DecodeResult) (s : AppState)
    (hdec : ∀ p, (decode p).isSome) (hidx : s.current_index < s.images.length) :
    ∃ s', load_current decode s = .ok s' ∧ s'.images = s.images ∧
      s'.current_index = s.current_index ∧ s'.zoom = s.zoom := by
  have hpath : s.images[s.current_index]? = some s.images[s.current_index] :=
    List.getElem?_eq_getElem hidx
  have hd := hdec s.images[s.current_index]
  rw [Option.isSome_iff_exists] at hd
  obtain ⟨r, hr⟩ := hd
  obtain ⟨data, w, h⟩ := r
  refine ⟨{ s with img_data := data, img_width := w, img_height := h }, ?_, rfl, rfl, rfl⟩
  simp [load_current, hpath, load_image, hr]

theorem go_next_spec (decode : String → Option DecodeResult) (s : AppState)
    (hdec : ∀ p, (decode p).isSome) (hne : s.images ≠ []) :
    ∃ s', go_next decode s = .ok s' ∧ s'.images = s.images ∧
      s'.current_index = (s.current_index + 1) % s.images.length ∧ s'.zoom = 1 := by
  have hlen : s.images.length ≠ 0 := by
    simpa [List.length_eq_zero] using hne
  have hlt : (s.current_index + 1) % s.images.length < s.images.length :=
    Nat.mod_lt _ (Nat.pos_of_ne_zero hlen)
  obtain ⟨s₁, h₁, himg, hidx, _⟩ :=
    load_current_spec decode { s with current_index := (s.current_index + 1) % s.images.length }
      hdec hlt
  refine ⟨{ s₁ with zoom := 1 }, ?_, himg, by simpa using hidx, rfl⟩
  simp [go_next, usizeRem, hlen, h₁]

theorem go_prev_spec (decode : String → Option DecodeResult) (s : AppState)
    (hdec : ∀ p, (decode p).isSome) (hne : s.images ≠ [])
    (hidx : s.current_index < s.images.length) :
    ∃ s', go_prev decode s = .ok s' ∧ s'.images = s.images ∧
      s'.current_index =
        (if s.current_index = 0 then s.images.length - 1 else s.current_index - 1) ∧
      s'.zoom = 1 := by
  have hlen : s.images.length ≠ 0 := by
    simpa [List.length_eq_zero] using hne
  have hpos : 0 < s.images.length := Nat.pos_of_ne_zero hlen
  set tgt : Nat :=
    if s.current_index = 0 then s.images.length - 1 else s.current_index - 1 with htgt
  have htlt : tgt < s.images.length := by
    rw [htgt]
    split
    · omega
    · omega
  have hget : (checkedSub s.current_index 1).getD (s.images.length - 1) = tgt := by
    rw [htgt]
    rcases Nat.eq_zero_or_pos s.current_index with h0 | h0
    · simp [checkedSub, h0]
    · simp [checkedSub, Nat.one_le_iff_ne_zero.mpr (Nat.pos_iff_ne_zero.mp h0), h0,
        Nat.pos_iff_ne_zero.mp h0]
  obtain ⟨s₁, h₁, himg, hidx₁, _⟩ :=
    load_current_spec decode { s with current_index := tgt } hdec htlt
  refine ⟨{ s₁ with zoom := 1 }, ?_, himg, by simpa using hidx₁, rfl⟩
  simp [go_prev, usizeSub, Nat.one_le_iff_ne_zero.mpr hlen, hget, h₁]

/-! ## Claims about zoom -/

/-- Claim C3, counterexample: from zoom factor 2, one zoom-in step yields
2.1, not clamp(2 * 1.1, 0.1, 5.0) = 2.2, so the step is not multiplicative. -/
theorem zoom_in_not_multiplicative :
    (zoom_in stZ2).zoom ≠ min (max (stZ2.zoom * (11/10)) (1/10)) 5 := by
  have h1 : stZ2.zoom = 2 := rfl
  simp only [zoom_in, h1]
  rw [min_eq_left (by norm_num), max_eq_left (by norm_num), min_eq_left (by norm_num)]
  norm_num

/-- Claim C3 (amended): one discrete zoom notch is a fixed additive step of
0.1 — zoom_in sets the zoom to z + 0.1 when that does not exceed 5.0 and to
5.0 otherwise; zoom_out sets it to z - 0.1 when that is at least 0.1 and to
0.1 otherwise. -/
theorem zoom_step_additive (s : AppState) :
    (s.zoom + 1/10 ≤ 5 → (zoom_in s).zoom = s.zoom + 1/10) ∧
    (5 < s.zoom + 1/10 → (zoom_in s).zoom = 5) ∧
    (1/10 ≤ s.zoom - 1/10 → (zoom_out s).zoom = s.zoom - 1/10) ∧
    (s.zoom - 1/10 < 1/10 → (zoom_out s).zoom = 1/10) := by
  refine ⟨fun h => ?_, fun h => ?_, fun h => ?_, fun h => ?_⟩
  · simp only [zoom_in]
    exact min_eq_left h
  · simp only [zoom_in]
    exact min_eq_right (le_of_lt h)
  · simp only [zoom_out]
    exact max_eq_left h
  · simp only [zoom_out]
    exact max_eq_right (le_of_lt h)

/-- Witness for the amended claim C3 at the concrete state with zoom 2. -/
theorem zoom_step_additive_witness :
    (stZ2.zoom + 1/10 ≤ 5 ∧ (zoom_in stZ2).zoom = stZ2.zoom + 1/10) ∧
    (1/10 ≤ stZ2.zoom - 1/10 ∧ (zoom_out stZ2).zoom = stZ2.zoom - 1/10) :=
  ⟨⟨by norm_num [stZ2], (zoom_step_additive stZ2).1 (by norm_num [stZ2])⟩,
   ⟨by norm_num [stZ2], (zoom_step_additive stZ2).2.2.1 (by norm_num [stZ2])⟩⟩

/-- Claim C6: from any zoom factor in [0.1, 5.0], both zoom operations
leave the zoom factor in [0.1, 5.0]. -/
theorem zoom_ops_preserve_range (s : AppState)
    (hlo : 1/10 ≤ s.zoom) (hhi : s.zoom ≤ 5) :
    (1/10 ≤ (zoom_in s).zoom ∧ (zoom_in s).zoom ≤ 5) ∧
    (1/10 ≤ (zoom_out s).zoom ∧ (zoom_out s).zoom ≤ 5) := by
  constructor
  · constructor
    · simp only [zoom_in]
      have h1 : (1:ℚ)/10 ≤ s.zoom + 1/10 := by linarith
      exact le_min h1 (by norm_num)
    · simp only [zoom_in]
      exact min_le_right _ _
  · constructor
    · simp only [zoom_out]
      exact le_max_right _ _
    · simp only [zoom_out]
      have h1 : s.zoom - 1/10 ≤ 5 := by linarith
      exact max_le h1 (by norm_num)

/-- Witness for claim C6 at the concrete state with zoom 2. -/
theorem zoom_ops_preserve_range_witness :
    (1/10 ≤ stZ2.zoom ∧ stZ2.zoom ≤ 5) ∧
    ((1/10 ≤ (zoom_in stZ2).zoom ∧ (zoom_in stZ2).zoom ≤ 5) ∧
     (1/10 ≤ (zoom_out stZ2).zoom ∧ (zoom_out stZ2).zoom ≤ 5)) :=
  ⟨⟨by norm_num [stZ2], by norm_num [stZ2]⟩,
    zoom_ops_preserve_range stZ2 (by norm_num [stZ2]) (by norm_num [stZ2])⟩

/-- Claim C10: within the zoom range, one zoom-in step never decreases the
zoom and one zoom-out step never increases it. -/
theorem zoom_ops_monotone (s : AppState)
    (hlo : 1/10 ≤ s.zoom) (hhi : s.zoom ≤ 5) :
    s.zoom ≤ (zoom_in s).zoom ∧ (zoom_out s).zoom ≤ s.zoom := by
  constructor
  · simp only [zoom_in]
    exact le_min (by linarith) hhi
  · simp only [zoom_out]
    exact max_le (by linarith) hlo

/-- Witness for claim C10 at the concrete state with zoom 2. -/
theorem zoom_ops_monotone_witness :
    (1/10 ≤ stZ2.zoom ∧ stZ2.zoom ≤ 5) ∧
    (stZ2.zoom ≤ (zoom_in stZ2).zoom ∧ (zoom_out stZ2).zoom ≤ stZ2.zoom) :=
  ⟨⟨by norm_num [stZ2], by norm_num [stZ2]⟩,
    zoom_ops_monotone stZ2 (by norm_num [stZ2]) (by norm_num [stZ2])⟩

/-! ## Claims about navigation -/

/-- Claim C5, counterexample: on an empty collection, go_next panics with a
remainder-by-zero and go_prev panics computing the fallback index, so
neither operation is a state-preserving no-op. -/
theorem empty_collection_ops_panic_example :
    go_next decodeOk emptyState =
        .error "attempt to calculate the remainder with a divisor of zero" ∧
      go_prev decodeOk emptyState = .error "attempt to subtract with overflow" := by
  constructor <;> rfl

/-- Claim C5 (amended): on an empty collection, go_next and go_prev are not
no-ops: go_next panics computing current_index modulo zero and go_prev
panics computing the fallback index len - 1 (an unreachable situation in
practice, since AppState construction rejects empty collections). -/
theorem empty_collection_ops_panic (decode : String → Option DecodeResult)
    (s : AppState) (h : s.images = []) :
    go_next decode s =
        .error "attempt to calculate the remainder with a divisor of zero" ∧
      go_prev decode s = .error "attempt to subtract with overflow" := by
  constructor
  · simp [go_next, usizeRem, h]
  · simp [go_prev, usizeSub, h]

/-- Witness for the amended claim C5 at the concrete empty state. -/
theorem empty_collection_ops_panic_witness :
    emptyState.images = [] ∧
    (go_next decodeFail emptyState =
        .error "attempt to calculate the remainder with a divisor of zero" ∧
      go_prev decodeFail emptyState = .error "attempt to subtract with overflow") :=
  ⟨rfl, empty_collection_ops_panic decodeFail emptyState rfl⟩

/-- Claim C4, counterexample: when the decoder fails on the next image,
go_next propagates the expect panic, so the decode failure is fatal. -/
theorem decode_failure_fatal_example :
    go_next decodeFail twoState = .error "Failed to open image" := by
  rfl

/-- Claim C4 (amended): when the decode service fails to produce pixel data,
load_image panics via expect("Failed to open image"), so a navigation step
onto an undecodable image aborts the process instead of continuing with a
fallback image. -/
theorem decode_failure_propagates (decode : String → Option DecodeResult)
    (s : AppState) (hne : s.images ≠ []) (hfail : ∀ p, decode p = none) :
    go_next decode s = .error "Failed to open image" := by
  have hlen : s.images.length ≠ 0 := by
    simpa [List.length_eq_zero] using hne
  have hlt : (s.current_index + 1) % s.images.length < s.images.length :=
    Nat.mod_lt _ (Nat.pos_of_ne_zero hlen)
  have hpath : s.images[(s.current_index + 1) % s.images.length]? =
      some s.images[(s.current_index + 1) % s.images.length] :=
    List.getElem?_eq_getElem hlt
  simp [go_next, usizeRem, hlen, load_current, hpath, load_image, hfail]

/-- Witness for the amended claim C4 at the concrete two-image state. -/
theorem decode_failure_propagates_witness :
    twoState.images ≠ [] ∧ go_next decodeFail twoState = .error "Failed to open image" :=
  ⟨by simp [twoState], decode_failure_propagates decodeFail twoState (by simp [twoState])
    (fun _ => rfl)⟩

/-- Claim C7: on a non-empty collection with a valid position, go_next then
go_prev, and go_prev then go_next, both restore the original position
(given a decoder that succeeds, so that neither navigation step panics). -/
theorem go_next_go_prev_inverse (decode : String → Option DecodeResult)
    (s : AppState) (hdec : ∀ p, (decode p).isSome) (hne : s.images ≠ [])
    (hidx : s.current_index < s.images.length) :
    (∃ s₁ s₂, go_next decode s = .ok s₁ ∧ go_prev decode s₁ = .ok s₂ ∧
      s₂.current_index = s.current_index) ∧
    (∃ t₁ t₂, go_prev decode s = .ok t₁ ∧ go_next decode t₁ = .ok t₂ ∧
      t₂.current_index = s.current_index) := by
  have hlen : s.images.length ≠ 0 := by
    simpa [List.length_eq_zero] using hne
  have hpos : 0 < s.images.length := Nat.pos_of_ne_zero hlen
  constructor
  · obtain ⟨s₁, h₁, himg₁, hidx₁, _⟩ := go_next_spec decode s hdec hne
    have hne₁ : s₁.images ≠ [] := by rw [himg₁]; exact hne
    have hlt₁ : s₁.current_index < s₁.images.length := by
      rw [himg₁, hidx₁]; exact Nat.mod_lt _ hpos
    obtain ⟨s₂, h₂, himg₂, hidx₂, _⟩ := go_prev_spec decode s₁ hdec hne₁ hlt₁
    refine ⟨s₁, s₂, h₁, h₂, ?_⟩
    rw [hidx₂, hidx₁, himg₁]
    rcases Nat.lt_or_ge (s.current_index + 1) s.images.length with hlt | hge
    · rw [Nat.mod_eq_of_lt hlt, if_neg (by omega)]
      omega
    · have heq : s.current_index + 1 = s.images.length := by omega
      rw [heq, Nat.mod_self, if_pos rfl]
      omega
  · obtain ⟨t₁, h₁, himg₁, hidx₁, _⟩ := go_prev_spec decode s hdec hne hidx
    have hne₁ : t₁.images ≠ [] := by rw [himg₁]; exact hne
    obtain ⟨t₂, h₂, himg₂, hidx₂, _⟩ := go_next_spec decode t₁ hdec hne₁
    refine ⟨t₁, t₂, h₁, h₂, ?_⟩
    rw [hidx₂, himg₁, hidx₁]
    by_cases h0 : s.current_index = 0
    · rw [if_pos h0]
      have hh : s.images.length - 1 + 1 = s.images.length := by omega
      rw [hh, Nat.mod_self, h0]
    · rw [if_neg h0]
      have hh : s.current_index - 1 + 1 = s.current_index := by omega
      rw [hh, Nat.mod_eq_of_lt hidx]

/-- Witness for claim C7 at the concrete two-image state. -/
theorem go_next_go_prev_inverse_witness :
    ((∀ p, (decodeOk p).isSome) ∧ twoState.images ≠ [] ∧
      twoState.current_index < twoState.images.length) ∧
    ((∃ s₁ s₂, go_next decodeOk twoState = .ok s₁ ∧ go_prev decodeOk s₁ = .ok s₂ ∧
        s₂.current_index = twoState.current_index) ∧
      (∃ t₁ t₂, go_prev decodeOk twoState = .ok t₁ ∧ go_next decodeOk t₁ = .ok t₂ ∧
        t₂.current_index = twoState.current_index)) :=
  ⟨⟨fun _ => rfl, by simp [twoState], by norm_num [twoState]⟩,
    go_next_go_prev_inverse decodeOk twoState (fun _ => rfl) (by simp [twoState])
      (by norm_num [twoState])⟩

/-- Claim C8: on a non-empty collection, go_next from the last index wraps
to index 0 and go_prev from index 0 wraps to the last index; in particular
on a singleton collection both operations land on index 0. -/
theorem navigation_wraparound (decode : String → Option DecodeResult)
    (s : AppState) (hdec : ∀ p, (decode p).isSome) (hne : s.images ≠ []) :
    (s.current_index = s.images.length - 1 →
      ∃ s', go_next decode s = .ok s' ∧ s'.current_index = 0) ∧
    (s.current_index = 0 →
      ∃ s', go_prev decode s = .ok s' ∧ s'.current_index = s.images.length - 1) ∧
    (s.images.length = 1 → s.current_index = 0 →
      (∃ s', go_next decode s = .ok s' ∧ s'.current_index = 0) ∧
      (∃ s', go_prev decode s = .ok s' ∧ s'.current_index = 0)) := by
  have hlen : s.images.length ≠ 0 := by
    simpa [List.length_eq_zero] using hne
  have hpos : 0 < s.images.length := Nat.pos_of_ne_zero hlen
  have hnext : s.current_index = s.images.length - 1 →
      ∃ s', go_next decode s = .ok s' ∧ s'.current_index = 0 := by
    intro hlast
    obtain ⟨s', h', _, hidx', _⟩ := go_next_spec decode s hdec hne
    refine ⟨s', h', ?_⟩
    rw [hidx', hlast]
    have : s.images.length - 1 + 1 = s.images.length := by omega
    rw [this, Nat.mod_self]
  have hprev : s.current_index = 0 →
      ∃ s', go_prev decode s = .ok s' ∧ s'.current_index = s.images.length - 1 := by
    intro h0
    obtain ⟨s', h', _, hidx', _⟩ := go_prev_spec decode s hdec hne (h0 ▸ hpos)
    refine ⟨s', h', ?_⟩
    rw [hidx', h0]
    simp
  refine ⟨hnext, hprev, fun h1 h0 => ⟨?_, ?_⟩⟩
  · exact hnext (by omega)
  · obtain ⟨s', h', hidx'⟩ := hprev h0
    exact ⟨s', h', by omega⟩

/-- Witness for claim C8 at the concrete five-image state on its last index. -/
theorem navigation_wraparound_witness :
    ((∀ p, (decodeOk p).isSome) ∧ fiveStateLast.images ≠ [] ∧
      fiveStateLast.current_index = fiveStateLast.images.length - 1) ∧
    (∃ s', go_next decodeOk fiveStateLast = .ok s' ∧ s'.current_index = 0) :=
  ⟨⟨fun _ => rfl, by simp [fiveStateLast], by norm_num [fiveStateLast]⟩,
    (navigation_wraparound decodeOk fiveStateLast (fun _ => rfl)
      (by simp [fiveStateLast])).1 (by norm_num [fiveStateLast])⟩

/-! ## Helper lemmas about the compositor -/

theorem coord_lt {a b A B : Nat} (ha : a < A) (hb : b < B) : b * A + a < A * B :=
  calc b * A + a < b * A + A := Nat.add_lt_add_left ha _
    _ = (b + 1) * A := (Nat.succ_mul b A).symm
    _ ≤ B * A := Nat.mul_le_mul_right A hb
    _ = A * B := Nat.mul_comm B A

theorem row_lt_index_ne {A A' u u' fw : Nat} (hu : u < fw) (hlt : A < A') :
    A' * fw + u' ≠ A * fw + u := by
  have h1 : A * fw + u < (A + 1) * fw := by
    rw [Nat.succ_mul]; exact Nat.add_lt_add_left hu _
  have h2 : (A + 1) * fw ≤ A' * fw := Nat.mul_le_mul_right fw hlt
  have h3 : A * fw + u < A' * fw + u' :=
    Nat.lt_of_lt_of_le h1 (Nat.le_trans h2 (Nat.le_add_right _ _))
  exact (Nat.ne_of_lt h3).symm

theorem drawPixel_ok (c : DrawCtx) (x y : Nat) (st : CompositeState)
    (hiw : 1 ≤ c.iw) (hih : 1 ≤ c.ih) (himg : c.img.length = c.iw * c.ih)
    (hframe : st.frame.length = c.fw * c.fh) (hy : y + c.offset_y < c.fh)
    (hw : ∀ e ∈ st.writes, WriteOk c e) :
    ∃ st', drawPixel c x y st = .ok st' ∧ st'.frame.length = c.fw * c.fh ∧
      ∀ e ∈ st'.writes, WriteOk c e := by
  by_cases hskip : c.fw ≤ x + c.offset_x
  · exact ⟨st, by simp [drawPixel, hskip], hframe, hw⟩
  · have hfx : x + c.offset_x < c.fw := Nat.lt_of_not_le hskip
    have hsx : min (ratAsU32 ((x : ℚ) / c.scale)) (c.iw - 1) < c.iw :=
      Nat.lt_of_le_of_lt (Nat.min_le_right _ _) (by omega)
    have hsy : min (ratAsU32 ((y : ℚ) / c.scale)) (c.ih - 1) < c.ih :=
      Nat.lt_of_le_of_lt (Nat.min_le_right _ _) (by omega)
    have hsrc : min (ratAsU32 ((y : ℚ) / c.scale)) (c.ih - 1) * c.iw +
        min (ratAsU32 ((x : ℚ) / c.scale)) (c.iw - 1) < c.img.length := by
      rw [himg]; exact coord_lt hsx hsy
    have hget : c.img[min (ratAsU32 ((y : ℚ) / c.scale)) (c.ih - 1) * c.iw +
          min (ratAsU32 ((x : ℚ) / c.scale)) (c.iw - 1)]? =
        some (c.img[min (ratAsU32 ((y : ℚ) / c.scale)) (c.ih - 1) * c.iw +
          min (ratAsU32 ((x : ℚ) / c.scale)) (c.iw - 1)]) :=
      List.getElem?_eq_getElem hsrc
    have hdst : (y + c.offset_y) * c.fw + (x + c.offset_x) < st.frame.length := by
      rw [hframe]; exact coord_lt hfx hy
    refine ⟨⟨st.frame.set ((y + c.offset_y) * c.fw + (x + c.offset_x))
        (c.img[min (ratAsU32 ((y : ℚ) / c.scale)) (c.ih - 1) * c.iw +
          min (ratAsU32 ((x : ℚ) / c.scale)) (c.iw - 1)]),
      st.writes ++ [((x + c.offset_x, y + c.offset_y),
        (min (ratAsU32 ((x : ℚ) / c.scale)) (c.iw - 1),
         min (ratAsU32 ((y : ℚ) / c.scale)) (c.ih - 1)))]⟩, ?_, ?_, ?_⟩
    · simp [drawPixel, hskip, hget, hdst]
    · simpa using hframe
    · intro e he
      rcases List.mem_append.mp he with h | h
      · exact hw e h
      · rcases List.mem_singleton.mp h with rfl
        exact ⟨hfx, hy, hsx, hsy⟩

theorem drawPixel_length (c : DrawCtx) (x y : Nat) (st st' : CompositeState)
    (h : drawPixel c x y st = .ok st') : st'.frame.length = st.frame.length := by
  simp only [drawPixel] at h
  split at h
  · cases h; rfl
  · split at h
    · cases h
    · split at h
      · cases h; simp
      · cases h

theorem drawRowFrom_ok (c : DrawCtx) (y : Nat)
    (hiw : 1 ≤ c.iw) (hih : 1 ≤ c.ih) (himg : c.img.length = c.iw * c.ih)
    (hy : y + c.offset_y < c.fh) :
    ∀ (n x : Nat) (st : CompositeState), st.frame.length = c.fw * c.fh →
      (∀ e ∈ st.writes, WriteOk c e) →
      ∃ st', drawRowFrom c y x n st = .ok st' ∧ st'.frame.length = c.fw * c.fh ∧
        ∀ e ∈ st'.writes, WriteOk c e := by
  intro n
  induction n with
  | zero => exact fun x st h1 h2 => ⟨st, rfl, h1, h2⟩
  | succ m ih =>
    intro x st h1 h2
    obtain ⟨st₁, hp, hl, hw⟩ := drawPixel_ok c x y st hiw hih himg h1 hy h2
    obtain ⟨st', hr, hl', hw'⟩ := ih (x + 1) st₁ hl hw
    exact ⟨st', by simp [drawRowFrom, hp, hr], hl', hw'⟩

theorem drawRowsFrom_ok (c : DrawCtx)
    (hiw : 1 ≤ c.iw) (hih : 1 ≤ c.ih) (himg : c.img.length = c.iw * c.ih) :
    ∀ (n y : Nat) (st : CompositeState), st.frame.length = c.fw * c.fh →
      (∀ e ∈ st.writes, WriteOk c e) →
      ∃ st', drawRowsFrom c y n st = .ok st' ∧ st'.frame.length = c.fw * c.fh ∧
        ∀ e ∈ st'.writes, WriteOk c e := by
  intro n
  induction n with
  | zero => exact fun y st h1 h2 => ⟨st, rfl, h1, h2⟩
  | succ m ih =>
    intro y st h1 h2
    by_cases hbr : c.fh ≤ y + c.offset_y
    · exact ⟨st, by simp [drawRowsFrom, hbr], h1, h2⟩
    · have hy : y + c.offset_y < c.fh := Nat.lt_of_not_le hbr
      obtain ⟨st₁, hrow, hl, hw⟩ := drawRowFrom_ok c y hiw hih himg hy c.scaled_width 0 st h1 h2
      obtain ⟨st', hrest, hl', hw'⟩ := ih (y + 1) st₁ hl hw
      exact ⟨st', by simp [drawRowsFrom, hbr, hrow, hrest], hl', hw'⟩

/-! ## Claim C1: compositor access bounds -/

/-- Claim C1: for a decoded image with positive dimensions, a destination
buffer of declared size fw * fh, and a zoom factor in [0.1, 5.0], the
compositor terminates without any out-of-bounds access and every pixel
copy it performs has destination coordinates inside [0, fw) x [0, fh)
and source coordinates inside [0, iw) x [0, ih). -/
theorem draw_image_accesses_in_bounds (frame img : List Pixel) (iw ih fw fh : Nat) (z : ℚ)
    (hiw : 1 ≤ iw) (hih : 1 ≤ ih)
    (himg : img.length = iw * ih) (hframe : frame.length = fw * fh)
    (hz1 : 1/10 ≤ z) (hz2 : z ≤ 5) :
    ∃ st, draw_image frame img iw ih fw fh z = .ok st ∧
      ∀ e ∈ st.writes, e.1.1 < fw ∧ e.1.2 < fh ∧ e.2.1 < iw ∧ e.2.2 < ih := by
  obtain ⟨st, hok, _, hw⟩ := drawRowsFrom_ok (mkCtx img iw ih fw fh z) hiw hih himg
    (scaled_height iw ih fw fh z) 0 ⟨frame.map (fun _ => BLACK), []⟩
    (by simpa using hframe) (by simp)
  exact ⟨st, hok, fun e he => hw e he⟩

/-- Witness for claim C1 on a one-pixel image and one-pixel frame. -/
theorem draw_image_accesses_in_bounds_witness :
    (1 ≤ 1 ∧ [((2 : Nat), 2, 2, 2)].length = 1 * 1 ∧ [((1 : Nat), 1, 1, 1)].length = 1 * 1 ∧
      (1 : ℚ)/10 ≤ 1 ∧ (1 : ℚ) ≤ 5) ∧
    ∃ st, draw_image [((1 : Nat), 1, 1, 1)] [((2 : Nat), 2, 2, 2)] 1 1 1 1 1 = .ok st ∧
      ∀ e ∈ st.writes, e.1.1 < 1 ∧ e.1.2 < 1 ∧ e.2.1 < 1 ∧ e.2.2 < 1 :=
  ⟨⟨le_refl 1, rfl, rfl, by norm_num, by norm_num⟩,
    draw_image_accesses_in_bounds [((1 : Nat), 1, 1, 1)] [((2 : Nat), 2, 2, 2)] 1 1 1 1 1
      (le_refl 1) (le_refl 1) rfl rfl (by norm_num) (by norm_num)⟩

/-! ## Claim C2: degenerate inputs -/

theorem base_scale_degenerate (iw ih fw fh : Nat)
    (h : iw = 0 ∨ ih = 0 ∨ fw = 0 ∨ fh = 0) : base_scale iw ih fw fh = 0 := by
  have hx : (0 : ℚ) ≤ (fw : ℚ) / (iw : ℚ) :=
    div_nonneg (Nat.cast_nonneg fw) (Nat.cast_nonneg iw)
  have hy : (0 : ℚ) ≤ (fh : ℚ) / (ih : ℚ) :=
    div_nonneg (Nat.cast_nonneg fh) (Nat.cast_nonneg ih)
  rcases h with h | h | h | h
  · rw [base_scale, h]
    simpa using min_eq_left hy
  · rw [base_scale, h]
    simpa using min_eq_right hx
  · rw [base_scale, h]
    simpa using min_eq_left hy
  · rw [base_scale, h]
    simpa using min_eq_right hx

/-- Claim C2: when any of the four dimensions is zero, draw_image writes
the opaque background into every element of the destination buffer,
performs no sample copy beyond that clear, and terminates normally. -/
theorem draw_image_degenerate_clear (frame img : List Pixel) (iw ih fw fh : Nat) (z : ℚ)
    (h : iw = 0 ∨ ih = 0 ∨ fw = 0 ∨ fh = 0) :
    draw_image frame img iw ih fw fh z = .ok ⟨frame.map (fun _ => BLACK), []⟩ := by
  have hb := base_scale_degenerate iw ih fw fh h
  have hs : final_scale iw ih fw fh z = 0 := by
    rw [final_scale, hb, zero_mul]
  have hsh : scaled_height iw ih fw fh z = 0 := by
    rw [scaled_height, hs, mul_zero]
    simp [ratAsU32]
  rw [draw_image, hsh]
  rfl

/-- Witness for claim C2 with a zero-width image and one-pixel frame. -/
theorem draw_image_degenerate_clear_witness :
    ((0 : Nat) = 0 ∨ (1 : Nat) = 0 ∨ (1 : Nat) = 0 ∨ (1 : Nat) = 0) ∧
    draw_image [((7 : Nat), 7, 7, 7)] [] 0 1 1 1 1 =
      .ok ⟨[((7 : Nat), 7, 7, 7)].map (fun _ => BLACK), []⟩ :=
  ⟨Or.inl rfl, draw_image_degenerate_clear [((7 : Nat), 7, 7, 7)] [] 0 1 1 1 1 (Or.inl rfl)⟩

/-! ## Claim C9: scale one reproduces the source exactly -/

theorem rat_floor_eq_intFloor (q : ℚ) : q.floor = ⌊q⌋ := rfl

theorem ratAsU32_natCast (n : Nat) (h : n ≤ U32_MAX) : ratAsU32 (n : ℚ) = n := by
  rcases Nat.eq_zero_or_pos n with h0 | h0
  · subst h0; simp [ratAsU32]
  · have hpos : ¬ ((n : ℚ) ≤ 0) := by
      push_neg
      exact_mod_cast h0
    rw [ratAsU32, if_neg hpos, rat_floor_eq_intFloor, Int.floor_natCast]
    simp only [Int.toNat_natCast]
    exact min_eq_left h

theorem scaled_width_of_scale_one (iw ih fw fh : Nat) (z : ℚ)
    (h : final_scale iw ih fw fh z = 1) (hle : iw ≤ U32_MAX) :
    scaled_width iw ih fw fh z = iw := by
  rw [scaled_width, h, mul_one, ratAsU32_natCast iw hle]

theorem scaled_height_of_scale_one (iw ih fw fh : Nat) (z : ℚ)
    (h : final_scale iw ih fw fh z = 1) (hle : ih ≤ U32_MAX) :
    scaled_height iw ih fw fh z = ih := by
  rw [scaled_height, h, mul_one, ratAsU32_natCast ih hle]

theorem drawPixel_scale_one (c : DrawCtx) (x y : Nat) (st : CompositeState)
    (hscale : c.scale = 1) (hx : x < c.iw) (hy : y < c.ih)
    (hiw32 : c.iw ≤ U32_MAX) (hih32 : c.ih ≤ U32_MAX)
    (hfx : x + c.offset_x < c.fw)
    (hdst : (y + c.offset_y) * c.fw + (x + c.offset_x) < st.frame.length)
    (px : Pixel) (hpx : c.img[y * c.iw + x]? = some px) :
    drawPixel c x y st = .ok ⟨st.frame.set ((y + c.offset_y) * c.fw + (x + c.offset_x)) px,
      st.writes ++ [((x + c.offset_x, y + c.offset_y), (x, y))]⟩ := by
  have hsx : min (ratAsU32 ((x : ℚ) / c.scale)) (c.iw - 1) = x := by
    rw [hscale, div_one, ratAsU32_natCast x (by omega)]
    omega
  have hsy : min (ratAsU32 ((y : ℚ) / c.scale)) (c.ih - 1) = y := by
    rw [hscale, div_one, ratAsU32_natCast y (by omega)]
    omega
  have hskip : ¬ (c.fw ≤ x + c.offset_x) := Nat.not_le.mpr hfx
  simp [drawPixel, hskip, hsx, hsy, hpx, hdst]

theorem drawPixel_get_ne (c : DrawCtx) (x y : Nat) (st st' : CompositeState) (i : Nat)
    (h : drawPixel c x y st = .ok st')
    (hne : x + c.offset_x < c.fw → (y + c.offset_y) * c.fw + (x + c.offset_x) ≠ i) :
    st'.frame[i]? = st.frame[i]? := by
  simp only [drawPixel] at h
  split at h
  · cases h; rfl
  next hskip =>
    split at h
    · cases h
    · split at h
      · cases h
        exact List.getElem?_set_ne (hne (Nat.lt_of_not_le hskip))
      · cases h

theorem drawRowFrom_get_ne (c : DrawCtx) (y i : Nat) :
    ∀ (n x : Nat) (st st' : CompositeState), drawRowFrom c y x n st = .ok st' →
      (∀ x', x ≤ x' → x' + c.offset_x < c.fw →
        (y + c.offset_y) * c.fw + (x' + c.offset_x) ≠ i) →
      st'.frame[i]? = st.frame[i]? := by
  intro n
  induction n with
  | zero =>
    intro x st st' h _
    cases h; rfl
  | succ m ih =>
    intro x st st' h hcond
    cases hp : drawPixel c x y st with
    | error e => simp [drawRowFrom, hp] at h
    | ok st₁ =>
      simp only [drawRowFrom, hp] at h
      have h1 := drawPixel_get_ne c x y st st₁ i hp (fun hlt => hcond x (le_refl x) hlt)
      have h2 := ih (x + 1) st₁ st' h (fun x' hx' hlt => hcond x' (by omega) hlt)
      rw [h2, h1]

theorem drawRowsFrom_get_ne (c : DrawCtx) (i : Nat) :
    ∀ (n y : Nat) (st st' : CompositeState), drawRowsFrom c y n st = .ok st' →
      (∀ y' x', y ≤ y' → x' + c.offset_x < c.fw →
        (y' + c.offset_y) * c.fw + (x' + c.offset_x) ≠ i) →
      st'.frame[i]? = st.frame[i]? := by
  intro n
  induction n with
  | zero =>
    intro y st st' h _
    cases h; rfl
  | succ m ih =>
    intro y st st' h hcond
    by_cases hbr : c.fh ≤ y + c.offset_y
    · simp only [drawRowsFrom, if_pos hbr] at h
      cases h; rfl
    · simp only [drawRowsFrom, if_neg hbr] at h
      cases hrow : drawRowFrom c y 0 c.scaled_width st with
      | error e => simp [hrow] at h
      | ok st₁ =>
        simp only [hrow] at h
        have h1 := drawRowFrom_get_ne c y i c.scaled_width 0 st st₁ hrow
          (fun x' _ hlt => hcond y x' (le_refl y) hlt)
        have h2 := ih (y + 1) st₁ st' h (fun y' x' hy' hlt => hcond y' x' (by omega) hlt)
        rw [h2, h1]

theorem drawRowFrom_length (c : DrawCtx) (y : Nat) :
    ∀ (n x : Nat) (st st' : CompositeState), drawRowFrom c y x n st = .ok st' →
      st'.frame.length = st.frame.length := by
  intro n
  induction n with
  | zero =>
    intro x st st' h
    cases h; rfl
  | succ m ih =>
    intro x st st' h
    cases hp : drawPixel c x y st with
    | error e => simp [drawRowFrom, hp] at h
    | ok st₁ =>
      simp only [drawRowFrom, hp] at h
      rw [ih (x + 1) st₁ st' h, drawPixel_length c x y st st₁ hp]

theorem drawRowFrom_hits (c : DrawCtx) (x y : Nat) (px : Pixel)
    (hscale : c.scale = 1) (hx : x < c.iw) (hy : y < c.ih)
    (hiw32 : c.iw ≤ U32_MAX) (hih32 : c.ih ≤ U32_MAX)
    (hfx : x + c.offset_x < c.fw)
    (hpx : c.img[y * c.iw + x]? = some px) :
    ∀ (n x₀ : Nat) (st st' : CompositeState), drawRowFrom c y x₀ n st = .ok st' →
      x₀ ≤ x → x < x₀ + n →
      (y + c.offset_y) * c.fw + (x + c.offset_x) < st.frame.length →
      st'.frame[(y + c.offset_y) * c.fw + (x + c.offset_x)]? = some px := by
  intro n
  induction n with
  | zero =>
    intro x₀ st st' _ h1 h2 _
    omega
  | succ m ih =>
    intro x₀ st st' h hle hlt hdst
    rcases Nat.eq_or_lt_of_le hle with heq | hlt₀
    · subst heq
      have hp := drawPixel_scale_one c x₀ y st hscale hx hy hiw32 hih32 hfx hdst px hpx
      simp only [drawRowFrom, hp] at h
      have hpres := drawRowFrom_get_ne c y ((y + c.offset_y) * c.fw + (x₀ + c.offset_x))
        m (x₀ + 1) _ st' h (fun x' hx' hlt' heqi => by
          have := Nat.add_left_cancel heqi
          omega)
      rw [hpres]
      exact List.getElem?_set_eq_of_lt px hdst
    · cases hp : drawPixel c x₀ y st with
      | error e => simp [drawRowFrom, hp] at h
      | ok st₁ =>
        simp only [drawRowFrom, hp] at h
        have hlen := drawPixel_length c x₀ y st st₁ hp
        exact ih (x₀ + 1) st₁ st' h (by omega) (by omega) (by rw [hlen]; exact hdst)

theorem drawRowsFrom_hits (c : DrawCtx) (x y : Nat) (px : Pixel)
    (hscale : c.scale = 1) (hx : x < c.iw) (hy : y < c.ih)
    (hiw32 : c.iw ≤ U32_MAX) (hih32 : c.ih ≤ U32_MAX)
    (hfx : x + c.offset_x < c.fw) (hfy : y + c.offset_y < c.fh)
    (hxw : x < c.scaled_width)
    (hpx : c.img[y * c.iw + x]? = some px) :
    ∀ (n y₀ : Nat) (st st' : CompositeState), drawRowsFrom c y₀ n st = .ok st' →
      y₀ ≤ y → y < y₀ + n → st.frame.length = c.fw * c.fh →
      st'.frame[(y + c.offset_y) * c.fw + (x + c.offset_x)]? = some px := by
  intro n
  induction n with
  | zero =>
    intro y₀ st st' _ h1 h2 _
    omega
  | succ m ih =>
    intro y₀ st st' h hle hlt hlen
    by_cases hbr : c.fh ≤ y₀ + c.offset_y
    · exfalso
      have hmono : y₀ + c.offset_y ≤ y + c.offset_y := by omega
      omega
    · simp only [drawRowsFrom, if_neg hbr] at h
      cases hrow : drawRowFrom c y₀ 0 c.scaled_width st with
      | error e => simp [hrow] at h
      | ok st₁ =>
        simp only [hrow] at h
        have hlen₁ : st₁.frame.length = c.fw * c.fh := by
          rw [drawRowFrom_length c y₀ c.scaled_width 0 st st₁ hrow]; exact hlen
        rcases Nat.eq_or_lt_of_le hle with heq | hlt₀
        · subst heq
          have hdst : (y₀ + c.offset_y) * c.fw + (x + c.offset_x) < st.frame.length := by
            rw [hlen]; exact coord_lt hfx hfy
          have hhit := drawRowFrom_hits c x y₀ px hscale hx hy hiw32 hih32 hfx hpx
            c.scaled_width 0 st st₁ hrow (Nat.zero_le x) (by omega) hdst
          have hpres := drawRowsFrom_get_ne c ((y₀ + c.offset_y) * c.fw + (x + c.offset_x))
            m (y₀ + 1) st₁ st' h
            (fun y' x' hy' hltx => row_lt_index_ne hfx (by omega))
          rw [hpres, hhit]
        · exact ih (y₀ + 1) st₁ st' h (by omega) (by omega) hlen₁

/-- For naturals up to 2 ^ 24 the cast to f32 is exact. -/
theorem natAsF32_eq_self (n : Nat) (h : n ≤ 16777216) : natAsF32 n = n := by
  simp [natAsF32, h]

/-- Claim C9, counterexample: for a 2 ^ 25 wide, 1 high image shown in
an equally sized frame at zoom 1 the computed final scale is exactly 1,
yet at destination column x = 2 ^ 24 + 1 the source samples column
2 ^ 24, not column x: the cast `x as f32` rounds 2 ^ 24 + 1 down to
2 ^ 24 (ties to even), so the drawn pixel differs from the
corresponding source pixel whenever those two source columns differ. -/
theorem identity_scale_drift_example :
    final_scale 33554432 1 33554432 1 1 = 1 ∧
    srcColAtScaleOne 16777217 33554432 = 16777216 ∧
    (16777216 : Nat) ≠ 16777217 := by
  refine ⟨?_, by decide, by decide⟩
  norm_num [final_scale, base_scale]

/-- Claim C9 (amended): when the computed final scale is exactly 1 and
both image dimensions are at most 2 ^ 24 — the range in which every
integer the sampling chain casts to f32 is exactly representable, so
the f32 computation coincides with the rational model — every drawn
destination pixel equals the corresponding source pixel exactly: the
pixel written at destination (x + offset_x, y + offset_y) is the source
pixel at (x, y), with no resampling drift.  Above 2 ^ 24 the cast
`x as f32` rounds and the program can sample a neighboring column. -/
theorem draw_image_identity_scale (frame img : List Pixel) (iw ih fw fh : Nat) (z : ℚ)
    (hscale : final_scale iw ih fw fh z = 1)
    (hiw24 : iw ≤ 16777216) (hih24 : ih ≤ 16777216)
    (himg : img.length = iw * ih) (hframe : frame.length = fw * fh)
    (x y : Nat) (hx : x < iw) (hy : y < ih)
    (hfx : x + offset_x iw ih fw fh z < fw) (hfy : y + offset_y iw ih fw fh z < fh) :
    ∃ st, draw_image frame img iw ih fw fh z = .ok st ∧
      st.frame[(y + offset_y iw ih fw fh z) * fw + (x + offset_x iw ih fw fh z)]? =
        img[y * iw + x]? := by
  have hiw32 : iw ≤ U32_MAX := le_trans hiw24 (by norm_num [U32_MAX])
  have hih32 : ih ≤ U32_MAX := le_trans hih24 (by norm_num [U32_MAX])
  have hsw : scaled_width iw ih fw fh z = iw := scaled_width_of_scale_one iw ih fw fh z hscale hiw32
  have hsh : scaled_height iw ih fw fh z = ih :=
    scaled_height_of_scale_one iw ih fw fh z hscale hih32
  have hidx : y * iw + x < img.length := by
    rw [himg]; exact coord_lt hx hy
  have hpx : img[y * iw + x]? = some img[y * iw + x] := List.getElem?_eq_getElem hidx
  obtain ⟨st, hok, hlen, _⟩ := drawRowsFrom_ok (mkCtx img iw ih fw fh z)
    (by simp only [mkCtx]; omega) (by simp only [mkCtx]; omega)
    (by simp only [mkCtx]; exact himg)
    (scaled_height iw ih fw fh z) 0 ⟨frame.map (fun _ => BLACK), []⟩
    (by simpa using hframe) (by simp)
  refine ⟨st, hok, ?_⟩
  have hhit := drawRowsFrom_hits (mkCtx img iw ih fw fh z) x y (img[y * iw + x])
    hscale hx hy hiw32 hih32 hfx hfy (by simpa [mkCtx, hsw] using hx) hpx
    (scaled_height iw ih fw fh z) 0 ⟨frame.map (fun _ => BLACK), []⟩ st hok
    (Nat.zero_le y) (by simpa [hsh] using hy) (by simpa using hframe)
  simp only [mkCtx] at hhit
  rw [hhit, hpx]

/-- Witness for claim C9 on a one-pixel image and one-pixel frame at
zoom 1, where the final scale is exactly 1. -/
theorem draw_image_identity_scale_witness :
    (final_scale 1 1 1 1 1 = 1 ∧ 0 + offset_x 1 1 1 1 1 < 1 ∧ 0 + offset_y 1 1 1 1 1 < 1) ∧
    (∃ st, draw_image [((9 : Nat), 9, 9, 9)] [((1 : Nat), 2, 3, 4)] 1 1 1 1 1 = .ok st ∧
      st.frame[(0 + offset_y 1 1 1 1 1) * 1 + (0 + offset_x 1 1 1 1 1)]? =
        [((1 : Nat), 2, 3, 4)][0 * 1 + 0]?) := by
  have hscale : final_scale 1 1 1 1 1 = 1 := by
    norm_num [final_scale, base_scale]
  have hsw : scaled_width 1 1 1 1 1 = 1 :=
    scaled_width_of_scale_one 1 1 1 1 1 hscale (by norm_num [U32_MAX])
  have hsh : scaled_height 1 1 1 1 1 = 1 :=
    scaled_height_of_scale_one 1 1 1 1 1 hscale (by norm_num [U32_MAX])
  have hox : offset_x 1 1 1 1 1 = 0 := by
    rw [offset_x, hsw]
    decide
  have hoy : offset_y 1 1 1 1 1 = 0 := by
    rw [offset_y, hsh]
    decide
  refine ⟨⟨hscale, by omega, by omega⟩, ?_⟩
  exact draw_image_identity_scale [((9 : Nat), 9, 9, 9)] [((1 : Nat), 2, 3, 4)] 1 1 1 1 1
    hscale (by norm_num) (by norm_num) rfl rfl 0 0
    (by norm_num) (by norm_num) (by omega) (by omega)

end Gallerust
